import Mathlib

/-!
Verification of the self-contained semantic retrieval engine of the
journal-app repository (src/utils.js, src/server.js, src/db.js,
src/agents/tools/find-related.js).

Modelling conventions:
* JavaScript strings are modelled as `List Char` (`JStr`).  All characters the
  algorithms inspect are ASCII, where UTF-16 code units, Unicode code points
  and `Char` agree.
* JavaScript numbers are modelled as real numbers (`ℝ`): the claims under
  scrutiny are stated up to floating-point tolerance, so the idealised real
  semantics is the appropriate reading.  Bitwise operations (`<< 5`, `| 0`)
  act on 32-bit two's-complement integers and are modelled exactly on `Int`
  via `toInt32`.
* All text-level processing (normalisation, trigram hashing, bucket counting,
  JSON recovery, regex-like extraction) is computable, so concrete witnesses
  evaluate by `decide`/`simp`; only the final real-valued normalisation and
  cosine similarity are noncomputable (they mention `Real.sqrt`).
-/

set_option maxRecDepth 8000

namespace ClearMind

/-- Model of a JavaScript string: a list of characters. -/
abbrev JStr := List Char

/-- Characters kept by the embedding normalisation regex `[^a-z0-9 ]` of
`getEmbedding` (src/utils.js line 7): lowercase ASCII letters, ASCII digits
and the space character. -/
def isKeptChar (c : Char) : Bool :=
  (97 ≤ c.toNat && c.toNat ≤ 122) || (48 ≤ c.toNat && c.toNat ≤ 57) || (c.toNat == 32)

/-- Normalisation step of `getEmbedding` (src/utils.js line 7):
`text.toLowerCase().replace(/[^a-z0-9 ]/g, '')`.  `Char.toLower` agrees with
JavaScript `toLowerCase` on the ASCII range, and every non-ASCII character is
removed by the filter on both sides. -/
def normalizeText (s : JStr) : JStr :=
  (s.map Char.toLower).filter isKeptChar

/-- All overlapping windows of length 3, sliding by one character: the
trigram enumeration loop of `getEmbedding` (src/utils.js lines 11-12,
`for (let i = 0; i < normalized.length - 2; i++)`). -/
def windows3 : JStr → List JStr
  | a :: b :: c :: rest => [a, b, c] :: windows3 (b :: c :: rest)
  | _ => []

/-- JavaScript `| 0`: wrap an integer to signed 32-bit two's complement. -/
def toInt32 (n : Int) : Int :=
  (n + 2 ^ 31) % 2 ^ 32 - 2 ^ 31

/-- One iteration of the trigram hash loop (src/utils.js line 15):
`hash = ((hash << 5) - hash + trigram.charCodeAt(j)) | 0`.  `hash << 5`
coerces to int32 and shifts (i.e. `toInt32 (h * 32)`); the subtraction and
addition are exact in doubles at these magnitudes; `| 0` wraps the result. -/
def hashStep (h : Int) (c : Char) : Int :=
  toInt32 (toInt32 (h * 32) - h + c.toNat)

/-- Hash of one trigram (src/utils.js lines 13-16), starting from 0. -/
def trigramHash (t : JStr) : Int :=
  t.foldl hashStep 0

/-- Bucket index of a trigram (src/utils.js line 17):
`Math.abs(hash) % dim` with `dim = 384`. -/
def bucketIndex (t : JStr) : ℕ :=
  (trigramHash t).natAbs % 384

/-- One accumulator increment `vector[index] += 1` (src/utils.js line 18). -/
def bumpAt (v : List ℕ) (i : ℕ) : List ℕ :=
  v.set i (v.getD i 0 + 1)

/-- The integer accumulator vector of `getEmbedding` just before
normalisation (src/utils.js lines 8-19): start from 384 zeroes and bump one
bucket per trigram occurrence. -/
def countVec (s : JStr) : List ℕ :=
  (windows3 (normalizeText s)).foldl (fun v t => bumpAt v (bucketIndex t)) (List.replicate 384 0)

/-- Sum of squares of the accumulator vector: the value
`vector.reduce((sum, v) => sum + v * v, 0)` of src/utils.js line 21 (exact,
since all entries are small integers). -/
def sumSq (v : List ℕ) : ℕ :=
  (v.map (fun x => x * x)).sum

/-- Model of `getEmbedding` (src/utils.js lines 6-29): hash character
trigrams of the normalised text into 384 buckets, then divide by the L2
magnitude when it is positive. -/
noncomputable def getEmbedding (s : JStr) : List ℝ :=
  let counts := countVec s
  let magnitude : ℝ := Real.sqrt (sumSq counts : ℝ)
  if 0 < magnitude then counts.map (fun c : ℕ => (c : ℝ) / magnitude)
  else counts.map (fun c : ℕ => (c : ℝ))

/-- Sum of squares of a real vector, as computed by the magnitude reductions
in src/utils.js (lines 21 and 36-37). -/
noncomputable def normSq (v : List ℝ) : ℝ :=
  (v.map (fun x => x * x)).sum

/-- Model of `cosineSimilarity` (src/utils.js lines 31-41): 0 on dimension
mismatch, otherwise dot product over the product of L2 norms, with the
zero-denominator case mapped to 0 (`denom === 0 ? 0 : dot / denom`). -/
noncomputable def cosineSimilarity (a b : List ℝ) : ℝ :=
  if a.length ≠ b.length then 0
  else
    let dot := (List.zipWith (fun x y => x * y) a b).sum
    let denom := Real.sqrt (normSq a) * Real.sqrt (normSq b)
    if denom = 0 then 0 else dot / denom

/-! ### Model of JavaScript JSON values and `JSON.parse`

`safeParseJson` (src/utils.js lines 44-65) is built on the platform's
`JSON.parse`.  We model JSON values as an inductive type (object member
order preserved, numbers as exact rationals — the idealised reading of
doubles used throughout) and `JSON.parse` as a fuel-indexed recursive
descent parser of the JSON grammar that returns `none` exactly where
`JSON.parse` throws. -/

inductive Json : Type where
  | null : Json
  | bool (b : Bool) : Json
  | num (q : ℚ) : Json
  | str (s : List Char) : Json
  | arr (elems : List Json) : Json
  | obj (members : List (List Char × Json)) : Json

/-- Whitespace accepted by the JSON grammar (and hence by `JSON.parse`):
space, tab, line feed, carriage return. -/
def isJsonWs (c : Char) : Bool :=
  c.toNat == 32 || c.toNat == 9 || c.toNat == 10 || c.toNat == 13

/-- Skip JSON whitespace. -/
def skipWs (s : JStr) : JStr :=
  s.dropWhile isJsonWs

/-- ASCII decimal digit. -/
def isDigit (c : Char) : Bool :=
  48 ≤ c.toNat && c.toNat ≤ 57

/-- Value of a list of decimal digits. -/
def digitsVal (l : JStr) : ℕ :=
  l.foldl (fun a c => a * 10 + (c.toNat - 48)) 0

/-- Hexadecimal digit value, for `\uXXXX` escapes. -/
def hexVal (c : Char) : Option ℕ :=
  if 48 ≤ c.toNat && c.toNat ≤ 57 then some (c.toNat - 48)
  else if 97 ≤ c.toNat && c.toNat ≤ 102 then some (c.toNat - 87)
  else if 65 ≤ c.toNat && c.toNat ≤ 70 then some (c.toNat - 55)
  else none

/-- Body of a JSON string literal after the opening quote: returns the
decoded characters and the remainder after the closing quote.  Mirrors the
JSON grammar: the eight single-character escapes, `\uXXXX`, and a ban on
unescaped control characters. -/
def parseStringBody : ℕ → JStr → Option (JStr × JStr)
  | 0, _ => none
  | fuel + 1, s =>
    match s with
    | [] => none
    | '"' :: r => some ([], r)
    | '\\' :: e :: r =>
      let cont : Char → JStr → Option (JStr × JStr) := fun c rest =>
        match parseStringBody fuel rest with
        | some (cs, r2) => some (c :: cs, r2)
        | none => none
      match e with
      | '"' => cont '"' r
      | '\\' => cont '\\' r
      | '/' => cont '/' r
      | 'b' => cont '\x08' r
      | 'f' => cont '\x0c' r
      | 'n' => cont '\n' r
      | 'r' => cont '\x0d' r
      | 't' => cont '\t' r
      | 'u' =>
        match r with
        | h1 :: h2 :: h3 :: h4 :: r2 =>
          match hexVal h1, hexVal h2, hexVal h3, hexVal h4 with
          | some a, some b, some c, some d =>
            cont (Char.ofNat (((a * 16 + b) * 16 + c) * 16 + d)) r2
          | _, _, _, _ => none
        | _ => none
      | _ => none
    | c :: r =>
      if c.toNat < 32 then none
      else
        match parseStringBody fuel r with
        | some (cs, r2) => some (c :: cs, r2)
        | none => none

/-- JSON number literal: optional minus, integer part (no leading zeroes),
optional fraction, optional exponent, evaluated exactly in `ℚ`. -/
def parseNumber (s : JStr) : Option (ℚ × JStr) :=
  let (neg, s1) := match s with
    | '-' :: r => (true, r)
    | _ => (false, s)
  match s1 with
  | [] => none
  | c :: _ =>
    if isDigit c then
      let (intDig, s2) :=
        if c.toNat == 48 then ([c], s1.drop 1)
        else (s1.takeWhile isDigit, s1.dropWhile isDigit)
      let intVal : ℕ := digitsVal intDig
      let fracRes : Option (ℕ × ℕ × JStr) := match s2 with
        | '.' :: r =>
          let fd := r.takeWhile isDigit
          if fd = [] then none else some (digitsVal fd, fd.length, r.dropWhile isDigit)
        | _ => some (0, 0, s2)
      match fracRes with
      | none => none
      | some (fracVal, fracLen, s3) =>
        let expRes : Option (ℤ × JStr) := match s3 with
          | e :: r =>
            if e.toNat == 101 || e.toNat == 69 then
              let (esign, r2) : ℤ × JStr := match r with
                | '+' :: r3 => (1, r3)
                | '-' :: r3 => (-1, r3)
                | _ => (1, r)
              let ed := r2.takeWhile isDigit
              if ed = [] then none
              else some (esign * (digitsVal ed : ℤ), r2.dropWhile isDigit)
            else some (0, s3)
          | [] => some (0, s3)
        match expRes with
        | none => none
        | some (expVal, s4) =>
          let base : ℚ := (intVal : ℚ) + (fracVal : ℚ) / ((10 : ℚ) ^ fracLen)
          let signed : ℚ := if neg then -base else base
          some (signed * (10 : ℚ) ^ expVal, s4)
    else none

mutual

/-- Fuel-indexed JSON value parser: skips leading whitespace, then
dispatches on the first character exactly as the JSON grammar does. -/
def parseVal : ℕ → JStr → Option (Json × JStr)
  | 0, _ => none
  | fuel + 1, s =>
    match skipWs s with
    | [] => none
    | '\x7b' :: r =>
      match skipWs r with
      | '\x7d' :: r2 => some (Json.obj [], r2)
      | _ => parseMembers fuel r []
    | '[' :: r =>
      match skipWs r with
      | ']' :: r2 => some (Json.arr [], r2)
      | _ => parseElems fuel r []
    | '"' :: r =>
      match parseStringBody (r.length + 1) r with
      | some (cs, r2) => some (Json.str cs, r2)
      | none => none
    | 't' :: r =>
      if [ 'r', 'u', 'e'].isPrefixOf r then some (Json.bool true, r.drop 3) else none
    | 'f' :: r =>
      if [ 'a', 'l', 's', 'e'].isPrefixOf r then some (Json.bool false, r.drop 4) else none
    | 'n' :: r =>
      if [ 'u', 'l', 'l'].isPrefixOf r then some (Json.null, r.drop 3) else none
    | s1 =>
      match parseNumber s1 with
      | some (q, r) => some (Json.num q, r)
      | none => none

/-- Members of a JSON object after the opening brace (nonempty case). -/
def parseMembers : ℕ → JStr → List (JStr × Json) → Option (Json × JStr)
  | 0, _, _ => none
  | fuel + 1, s, acc =>
    match skipWs s with
    | '"' :: r =>
      match parseStringBody (r.length + 1) r with
      | some (key, r2) =>
        match skipWs r2 with
        | ':' :: r3 =>
          match parseVal fuel r3 with
          | some (v, r4) =>
            match skipWs r4 with
            | ',' :: r5 => parseMembers fuel r5 (acc ++ [(key, v)])
            | '\x7d' :: r5 => some (Json.obj (acc ++ [(key, v)]), r5)
            | _ => none
          | none => none
        | _ => none
      | none => none
    | _ => none

/-- Elements of a JSON array after the opening bracket (nonempty case). -/
def parseElems : ℕ → JStr → List Json → Option (Json × JStr)
  | 0, _, _ => none
  | fuel + 1, s, acc =>
    match parseVal fuel s with
    | some (v, r) =>
      match skipWs r with
      | ',' :: r2 => parseElems fuel r2 (acc ++ [v])
      | ']' :: r2 => some (Json.arr (acc ++ [v]), r2)
      | _ => none
    | none => none

end

/-- Model of `JSON.parse(text)`: parse one value, require only whitespace
after it; `none` models a thrown `SyntaxError`.  The fuel `t.length + 1`
dominates the recursion depth, since every recursive call first consumes at
least one input character. -/
def jsonParse (t : JStr) : Option Json :=
  match parseVal (t.length + 1) t with
  | some (v, rest) => if skipWs rest = [] then some v else none
  | none => none

/-! ### Model of `safeParseJson` (src/utils.js lines 44-65) -/

/-- Whitespace class of JavaScript regexes (`\s`) and `String.trim`,
restricted to the characters relevant here (ASCII whitespace, NBSP, BOM). -/
def isJsSpace (c : Char) : Bool :=
  c.toNat == 32 || c.toNat == 9 || c.toNat == 10 || c.toNat == 13 ||
  c.toNat == 11 || c.toNat == 12 || c.toNat == 160 || c.toNat == 65279

/-- Model of JavaScript `String.prototype.trim`. -/
def jsTrim (s : JStr) : JStr :=
  ((s.dropWhile isJsSpace).reverse.dropWhile isJsSpace).reverse

/-- Split at the first occurrence of `pat`: returns the part before it and
the part after it, or `none` when `pat` does not occur. -/
def splitAtSub (pat : JStr) : JStr → Option (JStr × JStr)
  | [] => if pat = [] then some ([], []) else none
  | c :: rest =>
    if pat.isPrefixOf (c :: rest) then some ([], (c :: rest).drop pat.length)
    else
      match splitAtSub pat rest with
      | some (pre, post) => some (c :: pre, post)
      | none => none

/-- The triple-backtick delimiter of markdown code fences. -/
def fence : JStr := [ '\x60', '\x60', '\x60']

/-- Capture group of the fenced-block regex
`/\x60\x60\x60(?:json)?\s*([\s\S]*?)\x60\x60\x60/` applied by
`safeParseJson` (src/utils.js line 49): after the leftmost fence, optionally
skip a literal `json` tag, skip whitespace greedily, and capture lazily up
to the next fence. -/
def matchFenced (t : JStr) : Option JStr :=
  match splitAtSub fence t with
  | none => none
  | some (_, rest1) =>
    let rest2 := if [ 'j', 's', 'o', 'n'].isPrefixOf rest1 then rest1.drop 4 else rest1
    let rest3 := rest2.dropWhile isJsSpace
    match splitAtSub fence rest3 with
    | none => none
    | some (inner, _) => some inner

/-- Index of the first occurrence of `c`, if any. -/
def firstIdx (c : Char) (t : JStr) : Option ℕ :=
  let pre := t.takeWhile (fun x => x ≠ c)
  if pre.length = t.length then none else some pre.length

/-- Index of the last occurrence of `c`, if any. -/
def lastIdx (c : Char) (t : JStr) : Option ℕ :=
  let suf := t.reverse.takeWhile (fun x => x ≠ c)
  if suf.length = t.length then none else some (t.length - 1 - suf.length)

/-- Match of the greedy regexes `/\x7b[\s\S]*\x7d/` and `/\[[\s\S]*\]/`
(src/utils.js lines 54 and 59): the substring from the first occurrence of
`o` to the last occurrence of `c`, provided the latter comes after the
former. -/
def firstToLastSub (o c : Char) (t : JStr) : Option JStr :=
  match firstIdx o t, lastIdx c t with
  | some i, some j => if i < j then some ((t.drop i).take (j - i + 1)) else none
  | _, _ => none

/-- Model of `safeParseJson` (src/utils.js lines 44-65): direct parse, then
fenced-block parse (of the trimmed capture), then greedy brace substring,
then greedy bracket substring; the JavaScript `null` returned when every
attempt throws is `Json.null`. -/
def safeParseJson (t : JStr) : Json :=
  match jsonParse t with
  | some v => v
  | none =>
    match (matchFenced t).bind (fun inner => jsonParse (jsTrim inner)) with
    | some v => v
    | none =>
      match (firstToLastSub '\x7b' '\x7d' t).bind jsonParse with
      | some v => v
      | none =>
        match (firstToLastSub '[' ']' t).bind jsonParse with
        | some v => v
        | none => Json.null

/-! ### Entry CRUD (src/server.js lines 308-369, src/db.js lines 94-146)

Only the fields the claims mention are modelled: the persisted `content` and
the persisted `embedding` (`db.createEntry` / `db.updateEntry` store both
columns verbatim from what the handlers pass). -/

/-- An entry as persisted by `createEntry` / `updateEntry` (src/db.js):
`content` and `embedding` columns. -/
structure StoredEntry : Type where
  content : JStr
  embedding : List ℝ

/-- Model of the `POST /api/entries` handler (src/server.js lines 308-329):
blank content (empty or whitespace-only, i.e. `!content || !content.trim()`)
is rejected with a 400 (`none`); otherwise the entry is stored with
`content: content.trim()` and `embedding: getEmbedding(content)` — note the
embedding is computed from the submitted, untrimmed string. -/
noncomputable def postEntry (content : JStr) : Option StoredEntry :=
  if jsTrim content = [] then none
  else some { content := jsTrim content, embedding := getEmbedding content }

/-- Model of the content-update path of the `PUT /api/entries/:id` handler
(src/server.js lines 352-369): when `content` is truthy (a nonempty string)
the stored entry's `content` becomes `content.trim()` and its `embedding`
becomes `getEmbedding(content)` (again from the untrimmed string); a falsy
`content` (absent or empty) leaves both untouched. -/
noncomputable def putEntry (content : Option JStr) (e : StoredEntry) : StoredEntry :=
  match content with
  | some c =>
    if c = [] then e
    else { content := jsTrim c, embedding := getEmbedding c }
  | none => e

/-! ### Retrieval pipelines (src/server.js, src/agents/tools/find-related.js)

All consumers share the chain
`.map(shape).filter(sim > floor).sort((a, b) => b.similarity - a.similarity).slice(0, cap)`.
JavaScript's `Array.prototype.sort` is stable; with the comparator
`b.similarity - a.similarity` an earlier element precedes a later one in the
result iff its similarity is `≥` — which is exactly Mathlib's (stable)
`List.insertionSort` with the relation `simDesc`. -/

/-- Descending-similarity order used by every pipeline: `a` may precede `b`
iff `b`'s key does not exceed `a`'s. -/
def simDesc {α : Type} (key : α → ℝ) (a b : α) : Prop :=
  key b ≤ key a

noncomputable instance {α : Type} (key : α → ℝ) : DecidableRel (simDesc key) :=
  fun a b => Real.decidableLE (key b) (key a)

instance {α : Type} (key : α → ℝ) : IsTotal α (simDesc key) :=
  ⟨fun a b => (le_total (key b) (key a)).imp id id⟩

instance {α : Type} (key : α → ℝ) : IsTrans α (simDesc key) :=
  ⟨fun _ _ _ h1 h2 => le_trans h2 h1⟩

/-- The shared ranking stage: filter above the similarity floor, stable-sort
by similarity descending, truncate to the result cap. -/
noncomputable def rankBySim {α : Type} (key : α → ℝ) (floor : ℝ) (cap : ℕ)
    (l : List α) : List α :=
  ((l.filter (fun r => decide (floor < key r))).insertionSort (simDesc key)).take cap

/-- A row returned by `getEntriesWithEmbeddings` (src/db.js lines 156-163):
an entry that has a non-null embedding. -/
structure EntryRow : Type where
  id : JStr
  title : JStr
  content : JStr
  mood : JStr
  tags : List JStr
  createdAt : ℤ
  embedding : List ℝ

/-- A search result as shaped by the `POST /api/search` handler
(src/server.js lines 463-472). -/
structure SearchResult : Type where
  id : JStr
  title : JStr
  content : JStr
  createdAt : ℤ
  mood : JStr
  tags : List JStr
  similarity : ℝ

/-- The ellipsis appended to truncated search results. -/
def ellipsis : JStr := [ '.', '.', '.']

/-- Per-entry shaping of `POST /api/search` (src/server.js lines 464-472):
`content.substring(0, 200) + (content.length > 200 ? '...' : '')` and the
cosine similarity of the query embedding against the entry embedding. -/
noncomputable def searchShape (qe : List ℝ) (e : EntryRow) : SearchResult :=
  { id := e.id
    title := e.title
    content := e.content.take 200 ++ (if 200 < e.content.length then ellipsis else [])
    createdAt := e.createdAt
    mood := e.mood
    tags := e.tags
    similarity := cosineSimilarity qe e.embedding }

/-- Model of the `POST /api/search` pipeline (src/server.js lines 455-482):
shape each candidate, keep similarity strictly above `0.1`, sort descending,
keep the first 10. -/
noncomputable def searchHandler (query : JStr) (entries : List EntryRow) : List SearchResult :=
  rankBySim SearchResult.similarity 0.1 10 (entries.map (searchShape (getEmbedding query)))

/-- A related-entry record as shaped by `POST /api/reflect`
(src/server.js lines 495-502). -/
structure RelatedItem : Type where
  content : JStr
  mood : JStr
  tags : List JStr
  date : ℤ
  similarity : ℝ

/-- Per-entry shaping of `POST /api/reflect` (src/server.js lines 496-502). -/
noncomputable def reflectShape (qe : List ℝ) (e : EntryRow) : RelatedItem :=
  { content := e.content
    mood := e.mood
    tags := e.tags
    date := e.createdAt
    similarity := cosineSimilarity qe e.embedding }

/-- Model of the RAG context selection of `POST /api/reflect`
(src/server.js lines 494-505): floor `0.15`, descending sort, cap 5. -/
noncomputable def reflectRelated (content : JStr) (entries : List EntryRow) : List RelatedItem :=
  rankBySim RelatedItem.similarity 0.15 5 (entries.map (reflectShape (getEmbedding content)))

/-- A scored row of the coach context builder (src/server.js line 825:
`{ ...e, similarity }`). -/
structure ScoredRow : Type where
  entry : EntryRow
  similarity : ℝ

/-- Model of the RAG selection of `buildCoachContextWithRAG`
(src/server.js lines 818-838): floor `0.15`, descending sort, cap 3. -/
noncomputable def coachRelevant (lastUserMessage : JStr) (entries : List EntryRow) :
    List ScoredRow :=
  rankBySim ScoredRow.similarity 0.15 3
    (entries.map (fun e =>
      { entry := e
        similarity := cosineSimilarity (getEmbedding lastUserMessage) e.embedding }))

/-- A related-entry record as shaped by the `find_related` ADK tool
(src/agents/tools/find-related.js lines 28-34). -/
structure FindRelatedItem : Type where
  date : ℤ
  mood : JStr
  tags : List JStr
  content : JStr
  similarity : ℝ

/-- Per-entry shaping of `find_related` (src/agents/tools/find-related.js
lines 28-34): content excerpt of at most 300 characters. -/
noncomputable def findRelatedShape (qe : List ℝ) (e : EntryRow) : FindRelatedItem :=
  { date := e.createdAt
    mood := e.mood
    tags := e.tags
    content := e.content.take 300
    similarity := cosineSimilarity qe e.embedding }

/-- The effective result cap of `find_related`: `const maxResults = limit || 5`
(src/agents/tools/find-related.js line 25) — `0` is falsy in JavaScript, so
a caller-specified limit of `0` also yields 5.  Limits are modelled as
natural numbers (the zod schema admits any number; non-negative integers are
the meaningful domain for `slice`). -/
def frMaxResults (limit : Option ℕ) : ℕ :=
  match limit with
  | none => 5
  | some l => if l = 0 then 5 else l

/-- Model of the `find_related` tool pipeline
(src/agents/tools/find-related.js lines 19-40): floor `0.15`, descending
sort, cap `limit || 5`. -/
noncomputable def findRelatedExec (text : JStr) (limit : Option ℕ)
    (entries : List EntryRow) : List FindRelatedItem :=
  rankBySim FindRelatedItem.similarity 0.15 (frMaxResults limit)
    (entries.map (findRelatedShape (getEmbedding text)))

/-! ### Auxiliary definitions used by the claim statements -/

/-- Result-type test of the spec's contract
`safeParseJson(text) -> object | array | null`. -/
def isObjArrNull : Json → Bool
  | Json.obj _ => true
  | Json.arr _ => true
  | Json.null => true
  | _ => false

/-- Constructor test: is this JSON value a number? -/
def isNum : Json → Bool
  | Json.num _ => true
  | _ => false

/-- Modelled from the spec (§4.4 recovery order): the four parse attempts in
the order the spec lists them — direct, fenced block, greedy brace
substring, greedy bracket substring. -/
def specAttempts (t : JStr) : List (Option Json) :=
  [jsonParse t,
   (matchFenced t).bind (fun inner => jsonParse (jsTrim inner)),
   (firstToLastSub '\x7b' '\x7d' t).bind jsonParse,
   (firstToLastSub '[' ']' t).bind jsonParse]

/-- Modelled from the spec (§4.4): the first attempt that succeeds
determines the result. -/
def firstSuccess (attempts : List (Option Json)) : Option Json :=
  attempts.findSome? id

/-- A search-result record carrying only a similarity score, for concrete
retrieval-filtering scenarios. -/
noncomputable def mkSR (x : ℝ) : SearchResult :=
  { id := [], title := [], content := [], createdAt := 0, mood := [], tags := [], similarity := x }

/-- Concrete input: the two-character string `42`. -/
def in42 : JStr := [ '4', '2']

/-- Concrete input: the four-character string `null`. -/
def inNull : JStr := [ 'n', 'u', 'l', 'l']

/-- Concrete input: the two-character string `hi`. -/
def inHi : JStr := [ 'h', 'i']

/-- Concrete input: `x` followed by a space and an empty JSON object. -/
def inBrace : JStr := [ 'x', ' ', '\x7b', '\x7d']

/-- Concrete input: two exclamation marks (no alphanumeric content). -/
def inBang2 : JStr := [ '!', '!']

/-- Concrete input: three spaces (whitespace-only). -/
def inSpaces3 : JStr := [ ' ', ' ', ' ']

/-- Concrete input: `ab` followed by a trailing space. -/
def inAbSpace : JStr := [ 'a', 'b', ' ']

/-- Concrete input: the two-character string `ab`. -/
def inAb : JStr := [ 'a', 'b']

/-- Concrete input: the three-character string `abc`. -/
def inAbc : JStr := [ 'a', 'b', 'c']

/-- A concrete candidate row whose stored embedding is the embedding of
`abc`, so that the query `abc` scores similarity 1 against it. -/
noncomputable def row0 : EntryRow :=
  { id := [], title := [], content := inHi, mood := [], tags := [], createdAt := 0,
    embedding := getEmbedding inAbc }

/-! ### Helper lemmas about the embedding -/

lemma foldl_bump_length (l : List JStr) :
    ∀ v : List ℕ, ((l.foldl (fun v t => bumpAt v (bucketIndex t)) v)).length = v.length := by
  induction l with
  | nil => intro v; rfl
  | cons t rest ih =>
    intro v
    rw [List.foldl_cons, ih]
    unfold bumpAt
    exact List.length_set _ _ _

lemma countVec_length (s : JStr) : (countVec s).length = 384 := by
  unfold countVec
  rw [foldl_bump_length, List.length_replicate]

lemma sumSq_eq_zero_iff (v : List ℕ) : sumSq v = 0 ↔ ∀ x ∈ v, x = 0 := by
  unfold sumSq
  rw [List.sum_eq_zero_iff]
  constructor
  · intro h x hx
    have := h (x * x) (List.mem_map_of_mem _ hx)
    exact (Nat.mul_eq_zero.1 this).elim id id
  · intro h y hy
    obtain ⟨x, hx, rfl⟩ := List.mem_map.1 hy
    simp [h x hx]

lemma countVec_eq_replicate_of_sumSq_zero {s : JStr} (h : sumSq (countVec s) = 0) :
    countVec s = List.replicate 384 0 := by
  rw [List.eq_replicate_iff]
  exact ⟨countVec_length s, (sumSq_eq_zero_iff _).1 h⟩

lemma getEmbedding_of_sumSq_zero {s : JStr} (h : sumSq (countVec s) = 0) :
    getEmbedding s = List.replicate 384 (0 : ℝ) := by
  simp only [getEmbedding]
  rw [h, Nat.cast_zero, Real.sqrt_zero, if_neg (lt_irrefl 0),
    countVec_eq_replicate_of_sumSq_zero h, List.map_replicate, Nat.cast_zero]

lemma sqrt_sumSq_pos {s : JStr} (h : sumSq (countVec s) ≠ 0) :
    (0 : ℝ) < Real.sqrt (sumSq (countVec s) : ℝ) := by
  rw [Real.sqrt_pos]
  exact_mod_cast Nat.pos_of_ne_zero h

lemma getEmbedding_of_sumSq_ne {s : JStr} (h : sumSq (countVec s) ≠ 0) :
    getEmbedding s =
      (countVec s).map (fun c : ℕ => (c : ℝ) / Real.sqrt (sumSq (countVec s) : ℝ)) := by
  simp only [getEmbedding]
  rw [if_pos (sqrt_sumSq_pos h)]

lemma getEmbedding_length (s : JStr) : (getEmbedding s).length = 384 := by
  by_cases h : sumSq (countVec s) = 0
  · rw [getEmbedding_of_sumSq_zero h, List.length_replicate]
  · rw [getEmbedding_of_sumSq_ne h, List.length_map, countVec_length]

lemma cast_sumSq (v : List ℕ) :
    ((sumSq v : ℕ) : ℝ) = (v.map (fun x : ℕ => (x : ℝ) * (x : ℝ))).sum := by
  unfold sumSq
  rw [Nat.cast_list_sum, List.map_map]
  have hfun : ((Nat.cast : ℕ → ℝ) ∘ fun x : ℕ => x * x) = fun x : ℕ => (x : ℝ) * (x : ℝ) := by
    funext x
    simp [Nat.cast_mul]
  rw [hfun]

lemma normSq_map_div (v : List ℕ) (m : ℝ) :
    normSq (v.map (fun c : ℕ => (c : ℝ) / m)) = ((sumSq v : ℕ) : ℝ) * (m * m)⁻¹ := by
  unfold normSq
  rw [List.map_map]
  have hfun : ((fun x => x * x) ∘ fun c : ℕ => (c : ℝ) / m)
      = fun c : ℕ => ((c : ℝ) * (c : ℝ)) * (m * m)⁻¹ := by
    funext c
    simp only [Function.comp_apply]
    rw [div_mul_div_comm, div_eq_mul_inv]
  rw [hfun, cast_sumSq, ← List.sum_map_mul_right]

lemma normSq_getEmbedding_eq_one {s : JStr} (h : sumSq (countVec s) ≠ 0) :
    normSq (getEmbedding s) = 1 := by
  rw [getEmbedding_of_sumSq_ne h, normSq_map_div]
  rw [Real.mul_self_sqrt (Nat.cast_nonneg _)]
  have hne : ((sumSq (countVec s) : ℕ) : ℝ) ≠ 0 := by exact_mod_cast h
  field_simp

lemma getEmbedding_ne_zeroVec {s : JStr} (h : sumSq (countVec s) ≠ 0) :
    getEmbedding s ≠ List.replicate 384 (0 : ℝ) := by
  intro heq
  apply h
  rw [getEmbedding_of_sumSq_ne h] at heq
  have hall := (List.eq_replicate_iff.1 heq).2
  rw [sumSq_eq_zero_iff]
  intro x hx
  have hzero := hall _ (List.mem_map_of_mem
    (fun c : ℕ => (c : ℝ) / Real.sqrt (sumSq (countVec s) : ℝ)) hx)
  rcases div_eq_zero_iff.1 hzero with h1 | h2
  · exact_mod_cast h1
  · exact absurd h2 (ne_of_gt (sqrt_sumSq_pos h))

lemma getEmbedding_exists_ne_zero {s : JStr} (h : sumSq (countVec s) ≠ 0) :
    ∃ x ∈ getEmbedding s, x ≠ 0 := by
  by_contra hall
  push_neg at hall
  apply getEmbedding_ne_zeroVec h
  rw [List.eq_replicate_iff]
  exact ⟨getEmbedding_length s, hall⟩

lemma windows3_eq_nil_of_short {l : JStr} (h : l.length < 3) : windows3 l = [] := by
  match l with
  | [] => rfl
  | [_] => rfl
  | [_, _] => rfl
  | _ :: _ :: _ :: _ => simp at h; omega

lemma getEmbedding_zero_of_short {s : JStr} (h : (normalizeText s).length < 3) :
    getEmbedding s = List.replicate 384 (0 : ℝ) := by
  apply getEmbedding_of_sumSq_zero
  rw [sumSq_eq_zero_iff]
  intro x hx
  unfold countVec at hx
  rw [windows3_eq_nil_of_short h] at hx
  simp only [List.foldl_nil] at hx
  exact List.eq_of_mem_replicate hx

/-! ### Helper lemmas about cosine similarity -/

lemma normSq_nonneg (v : List ℝ) : 0 ≤ normSq v := by
  unfold normSq
  apply List.sum_nonneg
  intro x hx
  obtain ⟨y, _, rfl⟩ := List.mem_map.1 hx
  exact mul_self_nonneg y

lemma normSq_pos_of_mem {v : List ℝ} {x : ℝ} (hx : x ∈ v) (hne : x ≠ 0) :
    0 < normSq v := by
  have hle : x * x ≤ normSq v := by
    unfold normSq
    apply List.single_le_sum
    · intro y hy
      obtain ⟨z, _, rfl⟩ := List.mem_map.1 hy
      exact mul_self_nonneg z
    · exact List.mem_map_of_mem _ hx
  exact lt_of_lt_of_le (mul_self_pos.2 hne) hle

lemma zipWith_mul_self (v : List ℝ) :
    List.zipWith (fun x y => x * y) v v = v.map (fun x => x * x) := by
  induction v with
  | nil => rfl
  | cons a rest ih => simp [List.zipWith, ih]

lemma cosineSimilarity_self {v : List ℝ} (h : ∃ x ∈ v, x ≠ 0) :
    cosineSimilarity v v = 1 := by
  obtain ⟨x, hx, hne⟩ := h
  have hpos : 0 < normSq v := normSq_pos_of_mem hx hne
  simp only [cosineSimilarity]
  rw [if_neg (by simp), zipWith_mul_self]
  have hdot : (v.map (fun x => x * x)).sum = normSq v := rfl
  rw [hdot, Real.mul_self_sqrt (le_of_lt hpos), if_neg (ne_of_gt hpos)]
  exact div_self (ne_of_gt hpos)

lemma zipWith_mul_comm (a b : List ℝ) :
    List.zipWith (fun x y => x * y) a b = List.zipWith (fun x y => x * y) b a := by
  induction a generalizing b with
  | nil => cases b <;> rfl
  | cons x xs ih =>
    cases b with
    | nil => rfl
    | cons y ys => simp [List.zipWith, mul_comm, ih]

lemma cosineSimilarity_comm (a b : List ℝ) :
    cosineSimilarity a b = cosineSimilarity b a := by
  simp only [cosineSimilarity]
  by_cases h : a.length = b.length
  · rw [if_neg (not_ne_iff.2 h), if_neg (not_ne_iff.2 h.symm),
      zipWith_mul_comm, mul_comm (Real.sqrt (normSq a))]
  · rw [if_pos h, if_pos (fun e => h e.symm)]

lemma cosineSimilarity_length_ne {a b : List ℝ} (h : a.length ≠ b.length) :
    cosineSimilarity a b = 0 := by
  simp only [cosineSimilarity]
  rw [if_pos h]

lemma cosineSimilarity_norm_zero {a b : List ℝ}
    (h : Real.sqrt (normSq a) = 0 ∨ Real.sqrt (normSq b) = 0) :
    cosineSimilarity a b = 0 := by
  simp only [cosineSimilarity]
  by_cases hlen : a.length = b.length
  · rw [if_neg (not_ne_iff.2 hlen)]
    rcases h with h | h
    · rw [if_pos (by rw [h, zero_mul])]
    · rw [if_pos (by rw [h, mul_zero])]
  · rw [if_pos hlen]

/-! ### Helper lemmas about the JSON parser and the recovery extractors -/

lemma parseMembers_obj :
    ∀ (f : ℕ) (s : JStr) (acc : List (JStr × Json)) (v : Json) (rest : JStr),
      parseMembers f s acc = some (v, rest) → ∃ kvs, v = Json.obj kvs := by
  intro f
  induction f with
  | zero =>
    intro s acc v rest h
    simp [parseMembers] at h
  | succ f ih =>
    intro s acc v rest h
    simp only [parseMembers] at h
    repeat split at h
    all_goals first
      | exact ih _ _ _ _ h
      | (simp only [Option.some.injEq, Prod.mk.injEq] at h; exact ⟨_, h.1.symm⟩)
      | simp at h

lemma parseElems_arr :
    ∀ (f : ℕ) (s : JStr) (acc : List Json) (v : Json) (rest : JStr),
      parseElems f s acc = some (v, rest) → ∃ elems, v = Json.arr elems := by
  intro f
  induction f with
  | zero =>
    intro s acc v rest h
    simp [parseElems] at h
  | succ f ih =>
    intro s acc v rest h
    simp only [parseElems] at h
    repeat split at h
    all_goals first
      | exact ih _ _ _ _ h
      | (simp only [Option.some.injEq, Prod.mk.injEq] at h; exact ⟨_, h.1.symm⟩)
      | simp at h

lemma skipWs_brace (r : JStr) : skipWs ('\x7b' :: r) = '\x7b' :: r := rfl

lemma skipWs_bracket (r : JStr) : skipWs ('[' :: r) = '[' :: r := rfl

lemma parseVal_brace (f : ℕ) (r : JStr) (v : Json) (rest : JStr)
    (h : parseVal f ('\x7b' :: r) = some (v, rest)) : ∃ kvs, v = Json.obj kvs := by
  cases f with
  | zero => simp [parseVal] at h
  | succ f =>
    simp only [parseVal, skipWs_brace] at h
    split at h
    · simp only [Option.some.injEq, Prod.mk.injEq] at h
      exact ⟨_, h.1.symm⟩
    · exact parseMembers_obj _ _ _ _ _ h

lemma parseVal_bracket (f : ℕ) (r : JStr) (v : Json) (rest : JStr)
    (h : parseVal f ('[' :: r) = some (v, rest)) : ∃ elems, v = Json.arr elems := by
  cases f with
  | zero => simp [parseVal] at h
  | succ f =>
    simp only [parseVal, skipWs_bracket] at h
    split at h
    · simp only [Option.some.injEq, Prod.mk.injEq] at h
      exact ⟨_, h.1.symm⟩
    · exact parseElems_arr _ _ _ _ _ h

lemma jsonParse_brace (r : JStr) (v : Json) (h : jsonParse ('\x7b' :: r) = some v) :
    ∃ kvs, v = Json.obj kvs := by
  unfold jsonParse at h
  split at h
  · split at h
    · rename_i w rest heq _
      cases h
      exact parseVal_brace _ _ _ _ heq
    · exact absurd h (by simp)
  · exact absurd h (by simp)

lemma jsonParse_bracket (r : JStr) (v : Json) (h : jsonParse ('[' :: r) = some v) :
    ∃ elems, v = Json.arr elems := by
  unfold jsonParse at h
  split at h
  · split at h
    · rename_i w rest heq _
      cases h
      exact parseVal_bracket _ _ _ _ heq
    · exact absurd h (by simp)
  · exact absurd h (by simp)

lemma dropWhile_head_eq {p : Char → Bool} :
    ∀ (l : JStr) (x : Char) (xs : JStr), l.dropWhile p = x :: xs → p x = false := by
  intro l
  induction l with
  | nil => intro x xs h; simp [List.dropWhile] at h
  | cons c r ih =>
    intro x xs h
    rw [List.dropWhile_cons] at h
    split at h
    · exact ih _ _ h
    · cases h
      rename_i hc
      simpa using hc

lemma drop_takeWhile_length {p : Char → Bool} :
    ∀ l : JStr, l.drop (l.takeWhile p).length = l.dropWhile p := by
  intro l
  induction l with
  | nil => rfl
  | cons c r ih =>
    by_cases hp : p c = true
    · rw [List.takeWhile_cons, List.dropWhile_cons, if_pos hp, if_pos hp,
        List.length_cons, List.drop_succ_cons, ih]
    · rw [List.takeWhile_cons, List.dropWhile_cons, if_neg hp, if_neg hp]
      rfl

lemma firstToLastSub_head {o c : Char} {t sub : JStr}
    (h : firstToLastSub o c t = some sub) : ∃ r : JStr, sub = o :: r := by
  unfold firstToLastSub at h
  split at h
  · rename_i i j hfi _
    split at h
    · rename_i hij
      cases h
      simp only [firstIdx] at hfi
      split at hfi
      · exact absurd hfi (by simp)
      · rename_i hlen
        cases hfi
        have hsplit : t.takeWhile (fun x => x ≠ o) ++ t.dropWhile (fun x => x ≠ o) = t :=
          List.takeWhile_append_dropWhile _ _
        rw [drop_takeWhile_length]
        have hne : t.dropWhile (fun x => x ≠ o) ≠ [] := by
          intro hnil
          apply hlen
          have := congrArg List.length hsplit
          rw [List.length_append, hnil] at this
          simpa using this
        obtain ⟨x, xs, hx⟩ := List.exists_cons_of_ne_nil hne
        rw [hx]
        have hxo : x = o := by
          have := dropWhile_head_eq _ _ _ hx
          simpa using this
        rw [List.take_succ_cons, hxo]
        exact ⟨_, rfl⟩
    · exact absurd h (by simp)
  · exact absurd h (by simp)

/-! ### Helper lemmas about the shared ranking pipeline -/

lemma rankBySim_mem {α : Type} (key : α → ℝ) (floor : ℝ) (cap : ℕ) (l : List α)
    {r : α} (hr : r ∈ rankBySim key floor cap l) : floor < key r ∧ r ∈ l := by
  unfold rankBySim at hr
  have h1 : r ∈ (l.filter (fun r => decide (floor < key r))).insertionSort (simDesc key) :=
    (List.take_sublist _ _).mem hr
  have h2 : r ∈ l.filter (fun r => decide (floor < key r)) :=
    (List.perm_insertionSort _ _).mem_iff.1 h1
  have h3 := List.mem_filter.1 h2
  refine ⟨?_, h3.1⟩
  have := h3.2
  simpa using this

lemma rankBySim_sorted {α : Type} (key : α → ℝ) (floor : ℝ) (cap : ℕ) (l : List α) :
    (rankBySim key floor cap l).Sorted (simDesc key) := by
  unfold rankBySim
  exact (List.sorted_insertionSort _ _).sublist (List.take_sublist _ _)

lemma rankBySim_length_le {α : Type} (key : α → ℝ) (floor : ℝ) (cap : ℕ) (l : List α) :
    (rankBySim key floor cap l).length ≤ cap := by
  unfold rankBySim
  simp [List.length_take]

lemma rankBySim_complete {α : Type} (key : α → ℝ) (floor : ℝ) (cap : ℕ) (l : List α)
    (hlen : (l.filter (fun r => decide (floor < key r))).length ≤ cap) (r : α) :
    r ∈ rankBySim key floor cap l ↔ (floor < key r ∧ r ∈ l) := by
  unfold rankBySim
  rw [List.take_of_length_le (by rwa [List.length_insertionSort])]
  rw [(List.perm_insertionSort _ _).mem_iff, List.mem_filter]
  simp [and_comm]

/-! ### Helper lemmas about the hash range and further pipeline facts -/

lemma toInt32_range (n : ℤ) : -(2 ^ 31) ≤ toInt32 n ∧ toInt32 n < 2 ^ 31 := by
  unfold toInt32
  have h1 := Int.emod_nonneg (n + 2 ^ 31) (by norm_num : (2 ^ 32 : ℤ) ≠ 0)
  have h2 := Int.emod_lt_of_pos (n + 2 ^ 31) (by norm_num : (0 : ℤ) < 2 ^ 32)
  constructor <;> omega

lemma hashStep_range (h : ℤ) (c : Char) :
    -(2 ^ 31) ≤ hashStep h c ∧ hashStep h c < 2 ^ 31 :=
  toInt32_range _

lemma foldl_hashStep_range :
    ∀ (l : JStr) (h : ℤ), -(2 ^ 31) ≤ h → h < 2 ^ 31 →
      -(2 ^ 31) ≤ l.foldl hashStep h ∧ l.foldl hashStep h < 2 ^ 31 := by
  intro l
  induction l with
  | nil => intro h h1 h2; exact ⟨h1, h2⟩
  | cons c r ih =>
    intro h h1 h2
    rw [List.foldl_cons]
    exact ih _ (hashStep_range h c).1 (hashStep_range h c).2

lemma trigramHash_range (t : JStr) :
    -(2 ^ 31) ≤ trigramHash t ∧ trigramHash t < 2 ^ 31 := by
  unfold trigramHash
  exact foldl_hashStep_range t 0 (by norm_num) (by norm_num)

lemma rankBySim_singleton {α : Type} (key : α → ℝ) (floor : ℝ) (cap : ℕ) (x : α)
    (hx : floor < key x) (hcap : 1 ≤ cap) :
    rankBySim key floor cap [x] = [x] := by
  unfold rankBySim
  rw [List.filter_cons, if_pos (decide_eq_true hx), List.filter_nil]
  rw [show (List.insertionSort (simDesc key) [x]) = [x] by
    simp [List.insertionSort, List.orderedInsert]]
  exact List.take_of_length_le (by simpa using hcap)

lemma safeParseJson_eq_firstSuccess (t : JStr) :
    safeParseJson t = (firstSuccess (specAttempts t)).getD Json.null := by
  unfold safeParseJson specAttempts firstSuccess
  cases h1 : jsonParse t with
  | some v => simp [List.findSome?_cons, h1]
  | none =>
    cases h2 : (matchFenced t).bind (fun inner => jsonParse (jsTrim inner)) with
    | some v => simp [List.findSome?_cons, h1, h2]
    | none =>
      cases h3 : (firstToLastSub '\x7b' '\x7d' t).bind jsonParse with
      | some v => simp [List.findSome?_cons, h1, h2, h3]
      | none =>
        cases h4 : (firstToLastSub '[' ']' t).bind jsonParse with
        | some v => simp [List.findSome?_cons, h1, h2, h3, h4]
        | none => simp [List.findSome?_cons, h1, h2, h3, h4]

lemma cos_abc_self : cosineSimilarity (getEmbedding inAbc) (getEmbedding inAbc) = 1 :=
  cosineSimilarity_self (getEmbedding_exists_ne_zero (by decide))

/-! ### Claim theorems -/

/-- C3: for every input string, `getEmbedding` returns a vector of exactly
384 numbers that is either the all-zero vector or has L2 norm exactly 1 (the
idealised reading of "within floating-point tolerance"), and is the same on
every call with the same input; being a total Lean function, it never
throws. -/
theorem C3_embedding_output_contract : ∀ s : JStr,
    (getEmbedding s).length = 384 ∧
    (getEmbedding s = List.replicate 384 (0 : ℝ) ∨
      Real.sqrt (normSq (getEmbedding s)) = 1) ∧
    (∀ t : JStr, t = s → getEmbedding t = getEmbedding s) := by
  intro s
  refine ⟨getEmbedding_length s, ?_, fun t ht => ht ▸ rfl⟩
  by_cases h : sumSq (countVec s) = 0
  · exact Or.inl (getEmbedding_of_sumSq_zero h)
  · right
    rw [normSq_getEmbedding_eq_one h, Real.sqrt_one]

/-- C3 witness: the contract evaluated at the concrete input `abc`. -/
theorem C3_witness :
    (getEmbedding inAbc).length = 384 ∧ getEmbedding inAbc = getEmbedding inAbc :=
  ⟨(C3_embedding_output_contract inAbc).1,
   (C3_embedding_output_contract inAbc).2.2 inAbc rfl⟩

/-- C6: `cosineSimilarity` returns 0 on a dimension mismatch and returns 0
whenever either vector's L2 norm is exactly zero (including the zero vector
compared to itself); it is a total function, so it never throws, and the
zero-denominator branch is returned instead of dividing by zero. -/
theorem C6_cosine_defensive : ∀ a b : List ℝ,
    (a.length ≠ b.length → cosineSimilarity a b = 0) ∧
    (Real.sqrt (normSq a) = 0 ∨ Real.sqrt (normSq b) = 0 → cosineSimilarity a b = 0) :=
  fun _ _ => ⟨fun h => cosineSimilarity_length_ne h, fun h => cosineSimilarity_norm_zero h⟩

/-- C6 witness: the mismatched pair `[1,2]` / `[1,2,3]` and the zero vector
against itself both score 0. -/
theorem C6_witness :
    cosineSimilarity [(1 : ℝ), 2] [1, 2, 3] = 0 ∧
    cosineSimilarity [(0 : ℝ), 0] [0, 0] = 0 :=
  ⟨(C6_cosine_defensive _ _).1 (by simp),
   (C6_cosine_defensive _ _).2 (Or.inl (by simp [normSq]))⟩

/-- C9: `cosineSimilarity v v = 1` (exactly, in the idealised real model)
for every vector `v` that is not the zero vector, and `cosineSimilarity` is
symmetric on equal-length vectors. -/
theorem C9_similarity_identity_and_symmetry :
    (∀ v : List ℝ, (∃ x ∈ v, x ≠ 0) → cosineSimilarity v v = 1) ∧
    (∀ a b : List ℝ, a.length = b.length →
      cosineSimilarity a b = cosineSimilarity b a) :=
  ⟨fun _ h => cosineSimilarity_self h, fun a b _ => cosineSimilarity_comm a b⟩

/-- C9 witness: identity at `[1,2]` and symmetry at `[1,0]` / `[0,1]`. -/
theorem C9_witness :
    cosineSimilarity [(1 : ℝ), 2] [1, 2] = 1 ∧
    cosineSimilarity [(1 : ℝ), 0] [0, 1] = cosineSimilarity [(0 : ℝ), 1] [1, 0] :=
  ⟨C9_similarity_identity_and_symmetry.1 _ ⟨1, by simp, by norm_num⟩,
   C9_similarity_identity_and_symmetry.2 _ _ (by simp)⟩

/-- C10: for every trigram, the bucket index `Math.abs(hash) % 384` lies in
`[0, 383]`, because the wrapped hash always lies in `[-2^31, 2^31)`; in the
corner case hash `= -2^31`, the absolute value `2^31` still reduces to the
in-bounds index 128. -/
theorem C10_bucket_index_in_bounds : ∀ t : JStr,
    bucketIndex t < 384 ∧
    (-(2 ^ 31) ≤ trigramHash t ∧ trigramHash t < 2 ^ 31) ∧
    ((-2 ^ 31 : ℤ).natAbs % 384 = 128 ∧ (-2 ^ 31 : ℤ).natAbs % 384 < 384) :=
  fun t => ⟨Nat.mod_lt _ (by norm_num), trigramHash_range t, by decide, by decide⟩

/-- C8 (amended): every input whose normalised form — which keeps spaces —
is shorter than 3 characters yields the vector of 384 zeros.  (The original
claim's parenthetical, that all whitespace-only strings fall in this class,
fails: see the counterexample.) -/
theorem C8_short_input_zero_vector : ∀ s : JStr,
    (normalizeText s).length < 3 → getEmbedding s = List.replicate 384 (0 : ℝ) :=
  fun _ h => getEmbedding_zero_of_short h

/-- C8 witness: `!!` normalises to the empty string and embeds to zeros. -/
theorem C8_witness :
    (normalizeText inBang2).length < 3 ∧
    getEmbedding inBang2 = List.replicate 384 (0 : ℝ) :=
  ⟨by decide, C8_short_input_zero_vector inBang2 (by decide)⟩

/-- C8 counterexample: the whitespace-only string of three spaces keeps its
3 spaces under normalisation (so it is not covered by the "shorter than 3"
hypothesis) and its embedding is NOT the zero vector, contradicting the
claim's inclusion of whitespace-only strings (and §8's
`embed("   ") = zeros`). -/
theorem C8_counterexample :
    (normalizeText inSpaces3).length = 3 ∧
    getEmbedding inSpaces3 ≠ List.replicate 384 (0 : ℝ) :=
  ⟨by decide, getEmbedding_ne_zeroVec (by decide)⟩

/-- C1 (code bug): `POST /api/entries` (and the `PUT` content path) stores
`content.trim()` but computes the embedding from the untrimmed `content`.
At the input `"ab "` the stored entry has content `"ab"` with embedding
`getEmbedding "ab "`, which differs from `getEmbedding "ab"` (the former is
nonzero thanks to the trigram `ab␣`, the latter is the zero vector), so the
claimed invariant `embedding = getEmbedding(stored content)` fails. -/
theorem C1_embedding_computed_before_trim :
    postEntry inAbSpace = some { content := inAb, embedding := getEmbedding inAbSpace } ∧
    putEntry (some inAbSpace) { content := [], embedding := [] }
      = { content := inAb, embedding := getEmbedding inAbSpace } ∧
    getEmbedding inAbSpace ≠ getEmbedding inAb := by
  have htrim : jsTrim inAbSpace = inAb := by decide
  refine ⟨?_, ?_, ?_⟩
  · unfold postEntry
    rw [htrim, if_neg (by decide : ¬(inAb = ([] : JStr)))]
  · simp only [putEntry]
    rw [if_neg (by decide : ¬(inAbSpace = ([] : JStr))), htrim]
  · intro heq
    exact getEmbedding_ne_zeroVec (s := inAbSpace) (by decide)
      (heq.trans (getEmbedding_zero_of_short (by decide)))

/-- C4 counterexample: `safeParseJson "42"` returns a JSON number — not an
object, an array, or null — because the direct `JSON.parse` succeeds on any
scalar literal. -/
theorem C4_counterexample :
    isNum (safeParseJson in42) = true ∧ isObjArrNull (safeParseJson in42) = false :=
  ⟨rfl, rfl⟩

/-- C4 (amended): whenever the direct whole-string parse and the fenced-block
parse both fail, `safeParseJson` returns an object, an array, or null — the
greedy brace recovery can only produce an object, the greedy bracket
recovery only an array, and total failure produces null.  (The direct and
fenced attempts may return any JSON type, per the counterexample.) -/
theorem C4_recovery_result_type : ∀ t : JStr,
    jsonParse t = none →
    (matchFenced t).bind (fun inner => jsonParse (jsTrim inner)) = none →
    isObjArrNull (safeParseJson t) = true := by
  intro t h1 h2
  unfold safeParseJson
  simp only [h1, h2]
  cases h3 : (firstToLastSub '\x7b' '\x7d' t).bind jsonParse with
  | some v =>
    simp only [h3]
    obtain ⟨sub, hsub, hparse⟩ := Option.bind_eq_some.1 h3
    obtain ⟨r, rfl⟩ := firstToLastSub_head hsub
    obtain ⟨kvs, rfl⟩ := jsonParse_brace _ _ hparse
    rfl
  | none =>
    simp only [h3]
    cases h4 : (firstToLastSub '[' ']' t).bind jsonParse with
    | some v =>
      simp only [h4]
      obtain ⟨sub, hsub, hparse⟩ := Option.bind_eq_some.1 h4
      obtain ⟨r, rfl⟩ := firstToLastSub_head hsub
      obtain ⟨elems, rfl⟩ := jsonParse_bracket _ _ hparse
      rfl
    | none =>
      simp only [h4]
      rfl

/-- C4 witness: on `x {}` the direct and fenced parses fail and the result
(the recovered empty object) satisfies the object/array/null contract. -/
theorem C4_witness : isObjArrNull (safeParseJson inBrace) = true :=
  C4_recovery_result_type inBrace rfl rfl

/-- C5 counterexample: on the input `null` the FIRST attempt succeeds (the
whole string parses as the JSON literal `null`), yet `safeParseJson` returns
null — so "returns null exactly when all attempts fail" is false; null is
returned also when an attempt successfully parses the literal `null`. -/
theorem C5_counterexample :
    jsonParse inNull = some Json.null ∧ safeParseJson inNull = Json.null :=
  ⟨rfl, rfl⟩

/-- C5 (amended): `safeParseJson` tries the four attempts in the spec's
order — direct parse, fenced block, greedy brace substring, greedy bracket
substring — and returns the value of the first attempt that succeeds; it
returns null when all attempts fail (and also when the first successful
attempt parses the JSON literal `null`), and as a total function it never
throws. -/
theorem C5_recovery_order : ∀ t : JStr,
    safeParseJson t = (firstSuccess (specAttempts t)).getD Json.null ∧
    ((∀ a ∈ specAttempts t, a = none) → safeParseJson t = Json.null) := by
  intro t
  refine ⟨safeParseJson_eq_firstSuccess t, fun h => ?_⟩
  rw [safeParseJson_eq_firstSuccess t]
  have hnone : firstSuccess (specAttempts t) = none := by
    unfold firstSuccess
    rw [List.findSome?_eq_none_iff]
    simpa using h
  rw [hnone]
  rfl

/-- C5 witness: on the unparseable input `hi` all four attempts fail and the
result is null. -/
theorem C5_witness : safeParseJson inHi = Json.null :=
  (C5_recovery_order inHi).2 (by
    intro a ha
    have hlist : specAttempts inHi = [none, none, none, none] := rfl
    rw [hlist] at ha
    simpa using ha)

/-- C2: the search pipeline keeps exactly the candidates scoring strictly
above 0.1 (all members score above the floor; when at most 10 candidates
pass the floor, membership is exactly "scores above the floor"), sorts by
similarity descending, caps at 10 results, and truncates each result's
content to 200 characters with an ellipsis appended iff the original is
longer; on candidates scoring `[0.05, 0.12, 0.3, 0.9]` it returns exactly
the three results ordered `[0.9, 0.3, 0.12]`. -/
theorem C2_search_pipeline :
    (∀ (q : JStr) (entries : List EntryRow),
      (∀ r ∈ searchHandler q entries, (0.1 : ℝ) < r.similarity) ∧
      (searchHandler q entries).Sorted (simDesc SearchResult.similarity) ∧
      (searchHandler q entries).length ≤ 10 ∧
      (∀ r ∈ searchHandler q entries, ∃ e ∈ entries, r = searchShape (getEmbedding q) e) ∧
      (∀ e : EntryRow, (searchShape (getEmbedding q) e).content =
        if 200 < e.content.length then e.content.take 200 ++ ellipsis else e.content) ∧
      (((entries.map (searchShape (getEmbedding q))).filter
          (fun r => decide ((0.1 : ℝ) < r.similarity))).length ≤ 10 →
        ∀ r : SearchResult, r ∈ searchHandler q entries ↔
          ((0.1 : ℝ) < r.similarity ∧ r ∈ entries.map (searchShape (getEmbedding q))))) ∧
    rankBySim SearchResult.similarity 0.1 10 [mkSR 0.05, mkSR 0.12, mkSR 0.3, mkSR 0.9]
      = [mkSR 0.9, mkSR 0.3, mkSR 0.12] := by
  constructor
  · intro q entries
    simp only [searchHandler]
    refine ⟨fun r hr => (rankBySim_mem _ _ _ _ hr).1,
      rankBySim_sorted _ _ _ _,
      rankBySim_length_le _ _ _ _,
      ?_, ?_, fun hlen r => rankBySim_complete _ _ _ _ hlen r⟩
    · intro r hr
      obtain ⟨e, he, heq⟩ := List.mem_map.1 (rankBySim_mem _ _ _ _ hr).2
      exact ⟨e, he, heq.symm⟩
    · intro e
      simp only [searchShape]
      by_cases h : 200 < e.content.length
      · rw [if_pos h, if_pos h]
      · rw [if_neg h, if_neg h, List.take_of_length_le (by omega), List.append_nil]
  · have k : ∀ x : ℝ, (mkSR x).similarity = x := fun x => rfl
    unfold rankBySim
    norm_num [List.filter_cons, List.filter_nil, decide_eq_true_eq, k,
      List.insertionSort, List.orderedInsert, simDesc, List.take]

/-- C2 witness: with one candidate whose embedding equals the query's, the
pipeline keeps it and its similarity is above the floor. -/
theorem C2_witness :
    (0.1 : ℝ) < (searchShape (getEmbedding inAbc) row0).similarity := by
  have hs : (searchShape (getEmbedding inAbc) row0).similarity = 1 := by
    simp only [searchShape, row0]
    exact cos_abc_self
  have heval : searchHandler inAbc [row0] = [searchShape (getEmbedding inAbc) row0] := by
    unfold searchHandler
    rw [show ([row0].map (searchShape (getEmbedding inAbc)))
        = [searchShape (getEmbedding inAbc) row0] from rfl]
    exact rankBySim_singleton _ _ _ _ (by rw [hs]; norm_num) (by norm_num)
  exact (C2_search_pipeline.1 inAbc [row0]).1 _ (heval ▸ List.mem_singleton_self _)

/-- C7 counterexample: `find_related` computes `maxResults = limit || 5`, so
the caller-specified limit 0 is treated as absent: with `limit = 0` and one
passing candidate the tool still returns 1 result (cap 5), not 0 — the
claim's "capping at a caller-specified limit" fails at 0. -/
theorem C7_counterexample :
    frMaxResults (some 0) = 5 ∧
    (findRelatedExec inAbc (some 0) [row0]).length = 1 := by
  refine ⟨rfl, ?_⟩
  have hs : (findRelatedShape (getEmbedding inAbc) row0).similarity = 1 := by
    simp only [findRelatedShape, row0]
    exact cos_abc_self
  unfold findRelatedExec
  rw [show ([row0].map (findRelatedShape (getEmbedding inAbc)))
      = [findRelatedShape (getEmbedding inAbc) row0] from rfl]
  rw [rankBySim_singleton _ _ _ _ (by rw [hs]; norm_num) (by decide)]
  rfl

/-- C7 (amended): every RAG consumer filters at the floor 0.15 and sorts by
similarity descending; the reflect endpoint caps at 5, the coach context
builder caps at 3, and the `find_related` tool caps at `limit || 5` — the
caller-specified limit when it is a nonzero number, and 5 when it is absent
OR zero (JavaScript falsiness). -/
theorem C7_rag_consumers :
    (∀ (content lastMsg text : JStr) (limit : Option ℕ) (es : List EntryRow),
      (∀ r ∈ reflectRelated content es, (0.15 : ℝ) < r.similarity) ∧
      (reflectRelated content es).Sorted (simDesc RelatedItem.similarity) ∧
      (reflectRelated content es).length ≤ 5 ∧
      (∀ r ∈ coachRelevant lastMsg es, (0.15 : ℝ) < r.similarity) ∧
      (coachRelevant lastMsg es).Sorted (simDesc ScoredRow.similarity) ∧
      (coachRelevant lastMsg es).length ≤ 3 ∧
      (∀ r ∈ findRelatedExec text limit es, (0.15 : ℝ) < r.similarity) ∧
      (findRelatedExec text limit es).Sorted (simDesc FindRelatedItem.similarity) ∧
      (findRelatedExec text limit es).length ≤ frMaxResults limit) ∧
    frMaxResults none = 5 ∧
    (∀ l : ℕ, frMaxResults (some l) = if l = 0 then 5 else l) := by
  refine ⟨?_, rfl, fun l => rfl⟩
  intro content lastMsg text limit es
  simp only [reflectRelated, coachRelevant, findRelatedExec]
  exact ⟨fun r hr => (rankBySim_mem _ _ _ _ hr).1,
    rankBySim_sorted _ _ _ _, rankBySim_length_le _ _ _ _,
    fun r hr => (rankBySim_mem _ _ _ _ hr).1,
    rankBySim_sorted _ _ _ _, rankBySim_length_le _ _ _ _,
    fun r hr => (rankBySim_mem _ _ _ _ hr).1,
    rankBySim_sorted _ _ _ _, rankBySim_length_le _ _ _ _⟩

/-- C7 witness: with one candidate whose embedding equals the query's, the
reflect pipeline keeps it and its similarity is above the 0.15 floor. -/
theorem C7_witness :
    (0.15 : ℝ) < (reflectShape (getEmbedding inAbc) row0).similarity := by
  have hs : (reflectShape (getEmbedding inAbc) row0).similarity = 1 := by
    simp only [reflectShape, row0]
    exact cos_abc_self
  have heval : reflectRelated inAbc [row0] = [reflectShape (getEmbedding inAbc) row0] := by
    unfold reflectRelated
    rw [show ([row0].map (reflectShape (getEmbedding inAbc)))
        = [reflectShape (getEmbedding inAbc) row0] from rfl]
    exact rankBySim_singleton _ _ _ _ (by rw [hs]; norm_num) (by norm_num)
  exact (C7_rag_consumers.1 inAbc inAbc inAbc none [row0]).1 _
    (heval ▸ List.mem_singleton_self _)

end ClearMind
